import Mathlib

/-!
Verification development for the native-library synchronization engine of
`simpleperf/scripts/app_profiler.py` (`NativeLibDownloader` and its helper
class `HostElfEntry`).

Python strings are modelled as `List Char` (`Str`); Python dicts (which keep
insertion order and have unique keys) are modelled as association lists
together with the operations `alookup` (`d.get(k)` / `k in d`) and `ainsert`
(`d[k] = v`: replace in place when the key exists, append otherwise).

The external collaborators are modelled as data:
* the Binary Inspector (`readelf`): its three per-file outputs
  (`get_build_id`, `get_arch`, `get_sections`) become fields of `HostFile`;
* the adb transfer primitive: an `Adb` record of success oracles, where
  `check_run` (fatal on failure) aborts the sync and `run` (failure
  tolerated) has its result discarded.
-/

set_option autoImplicit false

abbrev Str := List Char

/-- Python `str.strip()` whitespace set (ASCII). -/
def isPyWs (c : Char) : Bool :=
  c = ' ' || c = '\t' || c = '\n' || c = '\r' || c = '\x0b' || c = '\x0c'

/-- Python `line.strip()`: drop leading and trailing whitespace. -/
def pyStrip (l : Str) : Str :=
  ((l.dropWhile isPyWs).reverse.dropWhile isPyWs).reverse

/-- Python `s.split(sep)` for a one-character separator `sep`:
splits on every occurrence, keeping empty parts (`''.split('=') == ['']`). -/
def splitOnChar (sep : Char) : Str → List Str
  | [] => [[]]
  | c :: rest =>
    match splitOnChar sep rest with
    | [] => [[]]
    | cur :: done => if c = sep then [] :: cur :: done else (c :: cur) :: done

/-- Decimal digits of `n`, most significant first, with `fuel` bounding the
recursion depth (`n ≤ fuel` suffices, see `toDecimalAux_spec`). -/
def toDecimalAux : Nat → Nat → Str
  | 0, n => [Nat.digitChar (n % 10)]
  | fuel + 1, n =>
    if n < 10 then [Nat.digitChar n]
    else toDecimalAux fuel (n / 10) ++ [Nat.digitChar (n % 10)]

/-- Python `str(n)` for a non-negative integer `n`. -/
def pyStrNat (n : Nat) : Str := toDecimalAux n n

/-- Python dict read: `d.get(k)`; `k in d` is `(alookup d k).isSome`. -/
def alookup {α : Type} : List (Str × α) → Str → Option α
  | [], _ => none
  | (k, v) :: rest, key => if k = key then some v else alookup rest key

/-- Python dict write `d[k] = v`: replace in place or append at the end. -/
def ainsert {α : Type} : List (Str × α) → Str → α → List (Str × α)
  | [], key, val => [(key, val)]
  | (k, v) :: rest, key, val =>
    if k = key then (key, val) :: rest else (k, v) :: ainsert rest key val

/-- `class HostElfEntry`: a native lib on host (`path`, `name`, `score`). -/
structure HostElfEntry where
  path : Str
  name : Str
  score : Nat
deriving DecidableEq

/-- One candidate file under `native_lib_dir`, together with the outputs the
Binary Inspector (`readelf`, an external tool) reports for it: `buildId` is
`readelf.get_build_id(path)` (the empty string when none is embedded, which
Python treats as falsy), `arch` is `readelf.get_arch(path)` and `sections`
is `readelf.get_sections(path)`. `name` is the file's base name as yielded
by `os.walk`. -/
structure HostFile where
  path : Str
  name : Str
  buildId : Str
  arch : Str
  sections : List Str
deriving DecidableEq

/-- The mutable state of a `NativeLibDownloader` instance. -/
structure NativeLibDownloader where
  needArchs : List Str
  hostBuildIdMap : List (Str × HostElfEntry)
  deviceBuildIdMap : List (Str × Str)
  nameCountMap : List (Str × Nat)
deriving DecidableEq

/-- `NativeLibDownloader._get_need_archs`. -/
def getNeedArchs (deviceArch : Str) : List Str :=
  if deviceArch = "arm64".data then ["arm".data, "arm64".data]
  else if deviceArch = "arm".data then ["arm".data]
  else if deviceArch = "x86_64".data then ["x86".data, "x86_64".data]
  else if deviceArch = "x86".data then ["x86".data]
  else []

/-- `NativeLibDownloader.__init__`: empty registries, archs from the device. -/
def mkNativeLibDownloader (deviceArch : Str) : NativeLibDownloader :=
  ⟨getNeedArchs deviceArch, [], [], []⟩

/-- The score computation inlined in `add_native_lib_on_host`
(lines 99-105): an ordered check of the present sections. -/
def computeScore (sections : List Str) : Nat :=
  if ".debug_info".data ∈ sections then 3
  else if ".gnu_debugdata".data ∈ sections then 2
  else if ".symtab".data ∈ sections then 1
  else 0

/-- `NativeLibDownloader.add_native_lib_on_host(path, name)`. -/
def addNativeLibOnHost (s : NativeLibDownloader) (f : HostFile) :
    NativeLibDownloader :=
  if f.buildId = [] then s
  else if f.arch ∉ s.needArchs then s
  else
    let score := computeScore f.sections
    match alookup s.hostBuildIdMap f.buildId with
    | some entry =>
      if entry.score < score then
        { s with hostBuildIdMap :=
            ainsert s.hostBuildIdMap f.buildId ⟨f.path, entry.name, score⟩ }
      else s
    | none =>
      let repeatCount := (alookup s.nameCountMap f.name).getD 0
      let uniqueName :=
        if repeatCount = 0 then f.name else f.name ++ '_' :: pyStrNat repeatCount
      { s with
          nameCountMap := ainsert s.nameCountMap f.name (repeatCount + 1),
          hostBuildIdMap :=
            ainsert s.hostBuildIdMap f.buildId ⟨f.path, uniqueName, score⟩ }

/-- `NativeLibDownloader.collect_native_libs_on_host(native_lib_dir)`:
clear `host_build_id_map`, then walk the directory; `files` is the sequence
of files in `os.walk` order; only names ending in `.so` are considered. -/
def collectNativeLibsOnHost (s : NativeLibDownloader) (files : List HostFile) :
    NativeLibDownloader :=
  files.foldl
    (fun st f => if ".so".data.isSuffixOf f.name then addNativeLibOnHost st f else st)
    { s with hostBuildIdMap := [] }

/-- The body of the `readlines` loop in `collect_native_libs_on_device`:
strip the line, split on `'='`, record the pair only when the split has
exactly two parts; every other line leaves the map unchanged. -/
def parseBuildIdLine (m : List (Str × Str)) (raw : Str) : List (Str × Str) :=
  let line := pyStrip raw
  let items := splitOnChar '=' line
  match items with
  | [k, v] => ainsert m k v
  | _ => m

/-- `NativeLibDownloader.collect_native_libs_on_device`: `pulled` is the
content of the pulled `build_id_list` file, or `none` when the pull failed
(no manifest yet), which yields the empty map. `readlines` followed by
`strip()` on each line is modelled as splitting on `'\n'` and stripping:
the parts agree after `strip()`, except a trailing empty part when the file
ends in a newline, and an empty part is ignored by `parseBuildIdLine`
(it splits into one item, not two). -/
def collectNativeLibsOnDevice (pulled : Option Str) : List (Str × Str) :=
  match pulled with
  | none => []
  | some content => (splitOnChar '\n' content).foldl parseBuildIdLine []

/-- `NATIVE_LIBS_DIR_ON_DEVICE`. -/
def dirOnDevice : Str := "/data/local/tmp/native_libs/".data

/-- `self.build_id_list_file`. -/
def buildIdListFile : Str := "build_id_list".data

/-- Serialization of the manifest written in `sync_natives_libs_on_device`:
one `'%s=%s\n' % (build_id, name)` line per entry, concatenated in order. -/
def serializeManifest (m : List (Str × Str)) : Str :=
  (m.map (fun p => p.1 ++ '=' :: p.2 ++ ['\n'])).flatten

/-- The `build_id → name` mapping `sync_natives_libs_on_device` serializes:
the host registry's key/name pairs in registry order. -/
def syncManifest (host : List (Str × HostElfEntry)) : List (Str × Str) :=
  host.map (fun p => (p.1, p.2.name))

/-- Modelled from the spec: the remote transfer primitive (`AdbHelper`,
defined in `utils.py`, which is not part of this repository slice). A call
either succeeds or fails; `pushOk src dst` (resp. `rmOk target`) tells
whether the corresponding remote operation succeeds. `adb.check_run`
aborts the whole operation on failure (fatal), `adb.run` returns the
success flag and the caller may ignore it. -/
structure Adb where
  pushOk : Str → Str → Bool
  rmOk : Str → Bool

/-- One observable side effect of a sync. -/
inductive SyncAct where
  | push : Str → Str → SyncAct
  | rm : Str → SyncAct
  | writeManifest : List (Str × Str) → SyncAct
deriving DecidableEq

/-- Push phase of `sync_natives_libs_on_device` (lines 132-136): for each
host build id missing from the device map, `check_run(['push', ...])`; a
failed push aborts the sync (`none`). Returns the pushes in order. -/
def pushMissingLibs (adb : Adb) (device : List (Str × Str)) :
    List (Str × HostElfEntry) → Option (List SyncAct)
  | [] => some []
  | (buildId, entry) :: rest =>
    match alookup device buildId with
    | some _ => pushMissingLibs adb device rest
    | none =>
      if adb.pushOk entry.path (dirOnDevice ++ entry.name) then
        (pushMissingLibs adb device rest).map
          (fun acts => SyncAct.push entry.path (dirOnDevice ++ entry.name) :: acts)
      else none

/-- Prune phase of `sync_natives_libs_on_device` (lines 137-141): for each
device build id missing from the host map, `run(['shell', 'rm', ...])`;
the success flag of `run` is discarded, so a failed deletion never aborts. -/
def removeStaleLibs (adb : Adb) (host : List (Str × HostElfEntry)) :
    List (Str × Str) → List SyncAct
  | [] => []
  | (buildId, name) :: rest =>
    match alookup host buildId with
    | some _ => removeStaleLibs adb host rest
    | none =>
      let _ := adb.rmOk (dirOnDevice ++ name)
      SyncAct.rm (dirOnDevice ++ name) :: removeStaleLibs adb host rest

/-- `NativeLibDownloader.sync_natives_libs_on_device`: push phase, then
prune phase, then write `build_id_list` and `check_run(['push', ...])` it to
the device. `none` models a fatal `check_run` failure; on success the
ordered list of side effects is returned. -/
def syncNativeLibsOnDevice (adb : Adb) (host : List (Str × HostElfEntry))
    (device : List (Str × Str)) : Option (List SyncAct) :=
  match pushMissingLibs adb device host with
  | none => none
  | some pushActs =>
    let rmActs := removeStaleLibs adb host device
    if adb.pushOk buildIdListFile (dirOnDevice ++ buildIdListFile) then
      some (pushActs ++ rmActs ++ [SyncAct.writeManifest (syncManifest host)])
    else none

/-! ### Association-list lemmas -/

theorem alookup_isSome_of_mem {α : Type} {m : List (Str × α)} {k : Str} {v : α}
    (h : (k, v) ∈ m) : (alookup m k).isSome := by
  induction m with
  | nil => cases h
  | cons p rest ih =>
    simp only [List.mem_cons] at h
    rcases h with h | h
    · simp [alookup, ← h]
    · obtain ⟨k', v'⟩ := p
      by_cases hk : k' = k <;> simp [alookup, hk, ih h]

theorem mem_of_alookup {α : Type} {m : List (Str × α)} {k : Str} {v : α}
    (h : alookup m k = some v) : (k, v) ∈ m := by
  induction m with
  | nil => simp [alookup] at h
  | cons p rest ih =>
    obtain ⟨k', v'⟩ := p
    by_cases hk : k' = k
    · subst hk
      simp [alookup] at h
      simp [h]
    · simp [alookup, hk] at h
      exact List.mem_cons_of_mem _ (ih h)

theorem alookup_eq_none_of_keys {α : Type} {m : List (Str × α)} {k : Str}
    (h : ∀ q ∈ m, q.1 ≠ k) : alookup m k = none := by
  induction m with
  | nil => rfl
  | cons p rest ih =>
    have hp : p.1 ≠ k := h p (List.mem_cons_self _ _)
    simpa [alookup, hp] using ih (fun q hq => h q (List.mem_cons_of_mem _ hq))

theorem alookup_ainsert_self {α : Type} (m : List (Str × α)) (k : Str) (v : α) :
    alookup (ainsert m k v) k = some v := by
  induction m with
  | nil => simp [ainsert, alookup]
  | cons p rest ih =>
    obtain ⟨k', v'⟩ := p
    by_cases hk : k' = k <;> simp [ainsert, alookup, hk, ih]

theorem alookup_ainsert_ne {α : Type} (m : List (Str × α)) (k key : Str) (v : α)
    (hk : key ≠ k) : alookup (ainsert m k v) key = alookup m key := by
  induction m with
  | nil => simp [ainsert, alookup, Ne.symm hk]
  | cons p rest ih =>
    obtain ⟨k', v'⟩ := p
    by_cases h1 : k' = k
    · subst h1
      simp [ainsert, alookup, Ne.symm hk]
    · by_cases h2 : k' = key <;> simp [ainsert, alookup, h1, h2, hk, ih]

theorem ainsert_of_alookup_none {α : Type} {m : List (Str × α)} {k : Str}
    (v : α) (h : alookup m k = none) : ainsert m k v = m ++ [(k, v)] := by
  induction m with
  | nil => rfl
  | cons p rest ih =>
    obtain ⟨k', v'⟩ := p
    by_cases hk : k' = k
    · simp [alookup, hk] at h
    · simp [alookup, hk] at h
      simp [ainsert, hk, ih h]

theorem mem_ainsert {α : Type} {m : List (Str × α)} {k : Str} {v : α} {x : Str × α}
    (h : x ∈ ainsert m k v) : x ∈ m ∨ x = (k, v) := by
  induction m with
  | nil => simpa [ainsert] using h
  | cons p rest ih =>
    obtain ⟨k', v'⟩ := p
    by_cases hk : k' = k
    · simp [ainsert, hk] at h
      rcases h with h | h
      · exact Or.inr (by simp [h])
      · exact Or.inl (List.mem_cons_of_mem _ h)
    · simp [ainsert, hk] at h
      rcases h with h | h
      · exact Or.inl (by simp [h])
      · rcases ih h with h' | h'
        · exact Or.inl (List.mem_cons_of_mem _ h')
        · exact Or.inr h'

theorem alookup_map_snd {α β : Type} (m : List (Str × α)) (g : α → β) (k : Str) :
    alookup (m.map (fun p => (p.1, g p.2))) k = (alookup m k).map g := by
  induction m with
  | nil => rfl
  | cons p rest ih =>
    obtain ⟨k', v'⟩ := p
    by_cases hk : k' = k <;> simp [alookup, hk, ih]

/-! ### Sync-phase lemmas -/

theorem pushMissingLibs_spec (adb : Adb) (device : List (Str × Str))
    (host : List (Str × HostElfEntry))
    (h : ∀ b e, (b, e) ∈ host → alookup device b = none →
      adb.pushOk e.path (dirOnDevice ++ e.name) = true) :
    pushMissingLibs adb device host =
      some ((host.filter (fun p => (alookup device p.1).isNone)).map
        (fun p => SyncAct.push p.2.path (dirOnDevice ++ p.2.name))) := by
  induction host with
  | nil => rfl
  | cons p rest ih =>
    obtain ⟨b, e⟩ := p
    have hrest := ih (fun b' e' hm => h b' e' (List.mem_cons_of_mem _ hm))
    cases hd : alookup device b with
    | some n => simp [pushMissingLibs, hd, hrest]
    | none =>
      have hp := h b e (List.mem_cons_self _ _) hd
      simp [pushMissingLibs, hd, hp, hrest]

theorem pushMissingLibs_all_present (adb : Adb) (device : List (Str × Str))
    (host : List (Str × HostElfEntry))
    (h : ∀ b e, (b, e) ∈ host → (alookup device b).isSome) :
    pushMissingLibs adb device host = some [] := by
  induction host with
  | nil => rfl
  | cons p rest ih =>
    obtain ⟨b, e⟩ := p
    have hb := h b e (List.mem_cons_self _ _)
    cases hd : alookup device b with
    | some n => simp [pushMissingLibs, hd,
        ih (fun b' e' hm => h b' e' (List.mem_cons_of_mem _ hm))]
    | none => simp [hd] at hb

theorem pushMissingLibs_none_of_fail (adb : Adb) (device : List (Str × Str))
    (host : List (Str × HostElfEntry)) (b : Str) (e : HostElfEntry)
    (hm : (b, e) ∈ host) (hd : alookup device b = none)
    (hf : adb.pushOk e.path (dirOnDevice ++ e.name) = false) :
    pushMissingLibs adb device host = none := by
  induction host with
  | nil => cases hm
  | cons p rest ih =>
    simp only [List.mem_cons] at hm
    rcases hm with hm | hm
    · obtain ⟨b', e'⟩ := p
      obtain ⟨hb, he⟩ := Prod.mk.injEq .. ▸ hm.symm
      subst hb
      subst he
      simp [pushMissingLibs, hd, hf]
    · obtain ⟨b', e'⟩ := p
      cases hd' : alookup device b' with
      | some n => simp [pushMissingLibs, hd', ih hm]
      | none =>
        cases hp' : adb.pushOk e'.path (dirOnDevice ++ e'.name) <;>
          simp [pushMissingLibs, hd', hp', ih hm]

theorem removeStaleLibs_spec (adb : Adb) (host : List (Str × HostElfEntry))
    (device : List (Str × Str)) :
    removeStaleLibs adb host device =
      (device.filter (fun q => (alookup host q.1).isNone)).map
        (fun q => SyncAct.rm (dirOnDevice ++ q.2)) := by
  induction device with
  | nil => rfl
  | cons q rest ih =>
    obtain ⟨b, n⟩ := q
    cases hh : alookup host b with
    | some e => simp [removeStaleLibs, hh, ih]
    | none => simp [removeStaleLibs, hh, ih]

theorem sync_manifest_pushOk (adb : Adb) (host : List (Str × HostElfEntry))
    (device : List (Str × Str)) (tr : List SyncAct)
    (h : syncNativeLibsOnDevice adb host device = some tr) :
    adb.pushOk buildIdListFile (dirOnDevice ++ buildIdListFile) = true := by
  unfold syncNativeLibsOnDevice at h
  cases hp : pushMissingLibs adb device host with
  | none => simp [hp] at h
  | some pushActs =>
    rw [hp] at h
    by_cases hb : adb.pushOk buildIdListFile (dirOnDevice ++ buildIdListFile) = true
    · exact hb
    · simp [hb] at h

theorem pushMissingLibs_rm_irrel (pushOk : Str → Str → Bool)
    (rm1 rm2 : Str → Bool) (device : List (Str × Str))
    (host : List (Str × HostElfEntry)) :
    pushMissingLibs ⟨pushOk, rm1⟩ device host =
      pushMissingLibs ⟨pushOk, rm2⟩ device host := by
  induction host with
  | nil => rfl
  | cons p rest ih =>
    obtain ⟨b, e⟩ := p
    cases hd : alookup device b <;>
      simp [pushMissingLibs, hd, ih]

/-! ### Claim C1 -/

/-- C1: for every host registry and remote manifest, when every required
transfer succeeds, sync pushes exactly the host files whose build id is in
the host registry but absent from the remote manifest (each under its
assigned name), deletes exactly the remote files whose build id is in the
remote manifest but absent from the host registry, performs the push phase,
then the prune phase, then the manifest rewrite in that order, and the
manifest it writes is exactly the host registry's `build_id → name` mapping,
independent of the remote manifest's prior content. -/
theorem sync_diff_and_manifest (adb : Adb) (host : List (Str × HostElfEntry))
    (device : List (Str × Str))
    (hpush : ∀ b e, (b, e) ∈ host → alookup device b = none →
      adb.pushOk e.path (dirOnDevice ++ e.name) = true)
    (hman : adb.pushOk buildIdListFile (dirOnDevice ++ buildIdListFile) = true) :
    syncNativeLibsOnDevice adb host device =
      some (((host.filter (fun p => (alookup device p.1).isNone)).map
              (fun p => SyncAct.push p.2.path (dirOnDevice ++ p.2.name)))
            ++ ((device.filter (fun q => (alookup host q.1).isNone)).map
              (fun q => SyncAct.rm (dirOnDevice ++ q.2)))
            ++ [SyncAct.writeManifest (host.map (fun p => (p.1, p.2.name)))]) := by
  unfold syncNativeLibsOnDevice
  rw [pushMissingLibs_spec adb device host hpush]
  simp [removeStaleLibs_spec, hman, syncManifest]

/-- Witness for C1 at the spec's scenario: remote manifest `{B1: lib1.so}`,
host registry `{B2: lib2.so}`. -/
theorem sync_diff_and_manifest_witness :
    syncNativeLibsOnDevice ⟨fun _ _ => true, fun _ => true⟩
      [("B2".data, ⟨"/host/lib2.so".data, "lib2.so".data, 0⟩)]
      [("B1".data, "lib1.so".data)] =
    some [SyncAct.push "/host/lib2.so".data (dirOnDevice ++ "lib2.so".data),
          SyncAct.rm (dirOnDevice ++ "lib1.so".data),
          SyncAct.writeManifest [("B2".data, "lib2.so".data)]] := by
  rw [sync_diff_and_manifest ⟨fun _ _ => true, fun _ => true⟩
    [("B2".data, ⟨"/host/lib2.so".data, "lib2.so".data, 0⟩)]
    [("B1".data, "lib1.so".data)]
    (fun b e _ _ => rfl) rfl]
  decide

/-! ### Claim C2 -/

/-- C2: a successful sync writes the manifest `syncManifest host` as its
final action, and running sync again against that manifest with the host
registry unchanged performs zero pushes and zero prunes: its only action is
rewriting the manifest, which again equals the host registry's key/name
mapping. -/
theorem sync_idempotent (adb : Adb) (host : List (Str × HostElfEntry))
    (device : List (Str × Str)) (tr : List SyncAct)
    (h : syncNativeLibsOnDevice adb host device = some tr) :
    (∃ pre, tr = pre ++ [SyncAct.writeManifest (syncManifest host)]) ∧
    syncNativeLibsOnDevice adb host (syncManifest host) =
      some [SyncAct.writeManifest (syncManifest host)] := by
  have hman := sync_manifest_pushOk adb host device tr h
  constructor
  · unfold syncNativeLibsOnDevice at h
    cases hp : pushMissingLibs adb device host with
    | none => simp [hp] at h
    | some pushActs =>
      rw [hp] at h
      simp only [hman, if_true] at h
      exact ⟨pushActs ++ removeStaleLibs adb host device, by
        simpa [List.append_assoc] using (Option.some.injEq .. ▸ h :).symm⟩
  · unfold syncNativeLibsOnDevice
    rw [pushMissingLibs_all_present adb (syncManifest host) host (by
      intro b e hm
      have : alookup (syncManifest host) b = (alookup host b).map HostElfEntry.name :=
        alookup_map_snd host HostElfEntry.name b
      rw [this]
      simp [Option.isSome_map, alookup_isSome_of_mem hm])]
    rw [removeStaleLibs_spec]
    have hfil : (syncManifest host).filter
        (fun q => (alookup host q.1).isNone) = [] := by
      rw [List.filter_eq_nil_iff]
      intro q hq
      simp only [syncManifest, List.mem_map] at hq
      obtain ⟨p, hp, rfl⟩ := hq
      have := alookup_isSome_of_mem (m := host) (k := p.1) (v := p.2)
        (by simpa using hp)
      simp [Option.isNone_iff_eq_none]
      intro hc
      simp [hc] at this
    simp [hfil, hman]

/-- Witness for C2: one host entry, empty initial remote manifest. -/
theorem sync_idempotent_witness :
    syncNativeLibsOnDevice ⟨fun _ _ => true, fun _ => true⟩
      [("B2".data, ⟨"/host/lib2.so".data, "lib2.so".data, 0⟩)]
      (syncManifest [("B2".data, ⟨"/host/lib2.so".data, "lib2.so".data, 0⟩)]) =
    some [SyncAct.writeManifest
      (syncManifest [("B2".data, ⟨"/host/lib2.so".data, "lib2.so".data, 0⟩)])] :=
  (sync_idempotent ⟨fun _ _ => true, fun _ => true⟩
    [("B2".data, ⟨"/host/lib2.so".data, "lib2.so".data, 0⟩)] []
    [SyncAct.push "/host/lib2.so".data (dirOnDevice ++ "lib2.so".data),
     SyncAct.writeManifest [("B2".data, "lib2.so".data)]] (by decide)).2

/-! ### Claim C8 -/

/-- C8: during sync, the failure of any single push transfer in the push
phase is fatal (the sync aborts with `none`), whereas deletion failures are
tolerated: the result of the sync does not depend on the deletion oracle at
all, so it continues past any failed deletion, and when every required push
succeeds it reports overall success whatever the deletion outcomes. -/
theorem sync_push_fatal_rm_tolerated (pushOk : Str → Str → Bool)
    (rm1 rm2 : Str → Bool) (host : List (Str × HostElfEntry))
    (device : List (Str × Str)) (b : Str) (e : HostElfEntry) :
    syncNativeLibsOnDevice ⟨pushOk, rm1⟩ host device =
      syncNativeLibsOnDevice ⟨pushOk, rm2⟩ host device
    ∧ ((b, e) ∈ host → alookup device b = none →
        pushOk e.path (dirOnDevice ++ e.name) = false →
        syncNativeLibsOnDevice ⟨pushOk, rm1⟩ host device = none)
    ∧ ((∀ b' e', (b', e') ∈ host → alookup device b' = none →
          pushOk e'.path (dirOnDevice ++ e'.name) = true) →
        pushOk buildIdListFile (dirOnDevice ++ buildIdListFile) = true →
        (syncNativeLibsOnDevice ⟨pushOk, rm1⟩ host device).isSome) := by
  refine ⟨?_, ?_, ?_⟩
  · unfold syncNativeLibsOnDevice
    rw [pushMissingLibs_rm_irrel pushOk rm1 rm2,
      removeStaleLibs_spec ⟨pushOk, rm1⟩, removeStaleLibs_spec ⟨pushOk, rm2⟩]
  · intro hm hd hf
    unfold syncNativeLibsOnDevice
    rw [pushMissingLibs_none_of_fail ⟨pushOk, rm1⟩ device host b e hm hd hf]
  · intro hall hman
    unfold syncNativeLibsOnDevice
    rw [pushMissingLibs_spec ⟨pushOk, rm1⟩ device host hall]
    simp [hman]

/-- Witness for C8: one host entry missing from the remote manifest; with a
failing push oracle the sync aborts, with a succeeding push oracle the sync
succeeds even though every deletion fails. -/
theorem sync_push_fatal_rm_tolerated_witness :
    syncNativeLibsOnDevice ⟨fun _ _ => false, fun _ => true⟩
      [("B2".data, ⟨"/host/lib2.so".data, "lib2.so".data, 0⟩)]
      [("B1".data, "lib1.so".data)] = none
    ∧ (syncNativeLibsOnDevice ⟨fun _ _ => true, fun _ => false⟩
        [("B2".data, ⟨"/host/lib2.so".data, "lib2.so".data, 0⟩)]
        [("B1".data, "lib1.so".data)]).isSome :=
  ⟨(sync_push_fatal_rm_tolerated (fun _ _ => false) (fun _ => true) (fun _ => true)
      [("B2".data, ⟨"/host/lib2.so".data, "lib2.so".data, 0⟩)]
      [("B1".data, "lib1.so".data)] "B2".data
      ⟨"/host/lib2.so".data, "lib2.so".data, 0⟩).2.1
    (by decide) (by decide) rfl,
   (sync_push_fatal_rm_tolerated (fun _ _ => true) (fun _ => false) (fun _ => true)
      [("B2".data, ⟨"/host/lib2.so".data, "lib2.so".data, 0⟩)]
      [("B1".data, "lib1.so".data)] "B2".data
      ⟨"/host/lib2.so".data, "lib2.so".data, 0⟩).2.2
    (fun _ _ _ _ => rfl) rfl⟩

/-! ### Claim C6 -/

/-- C6: the score of a scanned file is computed from its set of present
sections by the ordered policy: 3 if `.debug_info` is present; otherwise 2
if `.gnu_debugdata` is present; otherwise 1 if `.symtab` is present;
otherwise 0. -/
theorem score_ordered_policy (sections : List Str) :
    (".debug_info".data ∈ sections → computeScore sections = 3)
    ∧ (".debug_info".data ∉ sections → ".gnu_debugdata".data ∈ sections →
        computeScore sections = 2)
    ∧ (".debug_info".data ∉ sections → ".gnu_debugdata".data ∉ sections →
        ".symtab".data ∈ sections → computeScore sections = 1)
    ∧ (".debug_info".data ∉ sections → ".gnu_debugdata".data ∉ sections →
        ".symtab".data ∉ sections → computeScore sections = 0) := by
  refine ⟨fun h1 => ?_, fun h1 h2 => ?_, fun h1 h2 h3 => ?_, fun h1 h2 h3 => ?_⟩
  · simp [computeScore, h1]
  · simp [computeScore, h1, h2]
  · simp [computeScore, h1, h2, h3]
  · simp [computeScore, h1, h2, h3]

/-- Witness for C6: one concrete section set per branch of the policy. -/
theorem score_ordered_policy_witness :
    computeScore [".debug_info".data, ".symtab".data] = 3
    ∧ computeScore [".gnu_debugdata".data, ".symtab".data] = 2
    ∧ computeScore [".symtab".data] = 1
    ∧ computeScore [".text".data] = 0 :=
  ⟨(score_ordered_policy [".debug_info".data, ".symtab".data]).1 (by decide),
   (score_ordered_policy [".gnu_debugdata".data, ".symtab".data]).2.1
     (by decide) (by decide),
   (score_ordered_policy [".symtab".data]).2.2.1 (by decide) (by decide) (by decide),
   (score_ordered_policy [".text".data]).2.2.2 (by decide) (by decide) (by decide)⟩

/-! ### Claim C10 -/

theorem addNativeLibOnHost_no_arch (s : NativeLibDownloader) (f : HostFile)
    (h : s.needArchs = []) : addNativeLibOnHost s f = s := by
  unfold addNativeLibOnHost
  by_cases hb : f.buildId = [] <;> simp [hb, h]

/-- C10: if the device architecture is none of arm, arm64, x86, x86_64, the
need-archs set is empty, and then the host scan returns an empty registry
whatever the host directory holds: every file is excluded by the
architecture filter. -/
theorem unknown_arch_empty_registry (deviceArch : Str) (files : List HostFile)
    (h : deviceArch ∉ ["arm".data, "arm64".data, "x86".data, "x86_64".data]) :
    getNeedArchs deviceArch = []
    ∧ (collectNativeLibsOnHost (mkNativeLibDownloader deviceArch)
        files).hostBuildIdMap = [] := by
  simp only [List.mem_cons, List.mem_singleton, not_or] at h
  obtain ⟨h1, h2, h3, h4⟩ := h
  have harchs : getNeedArchs deviceArch = [] := by
    simp [getNeedArchs, h1, h2, h3, h4]
  refine ⟨harchs, ?_⟩
  unfold collectNativeLibsOnHost
  have : ∀ (files : List HostFile) (st : NativeLibDownloader),
      st.needArchs = [] → st.hostBuildIdMap = [] →
      (files.foldl (fun st f =>
        if ".so".data.isSuffixOf f.name then addNativeLibOnHost st f else st)
        st).hostBuildIdMap = [] := by
    intro fs
    induction fs with
    | nil => intro st _ hh; exact hh
    | cons f rest ih =>
      intro st ha hh
      by_cases hs : ".so".data.isSuffixOf f.name <;>
        simp only [List.foldl_cons, hs, if_true, if_false]
      · exact ih _ (by rw [addNativeLibOnHost_no_arch st f ha]; exact ha)
          (by rw [addNativeLibOnHost_no_arch st f ha]; exact hh)
      · exact ih st ha hh
  exact this files _ (by simp [mkNativeLibDownloader, harchs]) rfl

/-- Witness for C10 at `deviceArch = "mips"` with a nonempty host directory. -/
theorem unknown_arch_empty_registry_witness :
    getNeedArchs "mips".data = []
    ∧ (collectNativeLibsOnHost (mkNativeLibDownloader "mips".data)
        [⟨"/host/liba.so".data, "liba.so".data, "X".data, "mips".data,
          [".debug_info".data]⟩]).hostBuildIdMap = [] :=
  unknown_arch_empty_registry "mips".data
    [⟨"/host/liba.so".data, "liba.so".data, "X".data, "mips".data,
      [".debug_info".data]⟩] (by decide)

/-! ### Claim C3 -/

/-- C3 counterexample: the claim says a manifest line whose name part
contains a further `=` is accepted, splitting on the first `=` only, with
everything after the first `=` as the name. The code splits on every `=`
(`line.split('=')` with no maxsplit), gets three parts for `a=b=c`, and
ignores the line: the mapping stays empty instead of gaining
`a ↦ b=c`. -/
theorem parse_line_first_split_counterexample :
    parseBuildIdLine [] "a=b=c".data = []
    ∧ parseBuildIdLine [] "a=b=c".data ≠ [("a".data, "b=c".data)] := by
  decide

/-- C3 amended: the reader parses the manifest line by line; a stripped
line is accepted exactly when splitting it on every `=` yields exactly two
parts (that is, the line contains exactly one `=`), in which case the two
parts become the key and the name; any other line — in particular one with
a further `=` in the name part — leaves the mapping unchanged, and no line
ever makes the read fail (the parse is a total function). -/
theorem parse_line_exact_split (m : List (Str × Str)) (raw : Str) :
    (∀ k v, splitOnChar '=' (pyStrip raw) = [k, v] →
      parseBuildIdLine m raw = ainsert m k v)
    ∧ ((splitOnChar '=' (pyStrip raw)).length ≠ 2 →
      parseBuildIdLine m raw = m) := by
  constructor
  · intro k v h
    simp [parseBuildIdLine, h]
  · intro h
    match hs : splitOnChar '=' (pyStrip raw) with
    | [] => simp [parseBuildIdLine, hs]
    | [a] => simp [parseBuildIdLine, hs]
    | [a, b] => rw [hs] at h; simp at h
    | a :: b :: c :: rest => simp [parseBuildIdLine, hs]

/-- Witness for C3: a well-formed (whitespace-padded) line is recorded, a
line with two `=` is ignored. -/
theorem parse_line_exact_split_witness :
    parseBuildIdLine [] " a=b \n".data = [("a".data, "b".data)]
    ∧ parseBuildIdLine [("k".data, "v".data)] "a=b=c".data =
        [("k".data, "v".data)] := by
  constructor
  · rw [(parse_line_exact_split [] " a=b \n".data).1 "a".data "b".data (by decide)]
    decide
  · exact (parse_line_exact_split [("k".data, "v".data)] "a=b=c".data).2 (by decide)

/-! ### Shape lemmas for `addNativeLibOnHost` -/

theorem addNativeLibOnHost_some (s : NativeLibDownloader) (f : HostFile)
    (e : HostElfEntry) (hb : f.buildId ≠ []) (ha : f.arch ∈ s.needArchs)
    (hl : alookup s.hostBuildIdMap f.buildId = some e) :
    addNativeLibOnHost s f =
      if e.score < computeScore f.sections then
        { s with hostBuildIdMap :=
            ainsert s.hostBuildIdMap f.buildId ⟨f.path, e.name, computeScore f.sections⟩ }
      else s := by
  simp [addNativeLibOnHost, hb, ha, hl]

theorem addNativeLibOnHost_none (s : NativeLibDownloader) (f : HostFile)
    (hb : f.buildId ≠ []) (ha : f.arch ∈ s.needArchs)
    (hl : alookup s.hostBuildIdMap f.buildId = none) :
    addNativeLibOnHost s f =
      { s with
          nameCountMap :=
            ainsert s.nameCountMap f.name ((alookup s.nameCountMap f.name).getD 0 + 1),
          hostBuildIdMap :=
            ainsert s.hostBuildIdMap f.buildId
              ⟨f.path,
               if (alookup s.nameCountMap f.name).getD 0 = 0 then f.name
               else f.name ++ '_' :: pyStrNat ((alookup s.nameCountMap f.name).getD 0),
               computeScore f.sections⟩ } := by
  simp [addNativeLibOnHost, hb, ha, hl]

theorem addNativeLibOnHost_skip (s : NativeLibDownloader) (f : HostFile)
    (h : f.buildId = [] ∨ f.arch ∉ s.needArchs) :
    addNativeLibOnHost s f = s := by
  rcases h with h | h
  · simp [addNativeLibOnHost, h]
  · by_cases hb : f.buildId = [] <;> simp [addNativeLibOnHost, hb, h]

theorem addNativeLibOnHost_needArchs (s : NativeLibDownloader) (f : HostFile) :
    (addNativeLibOnHost s f).needArchs = s.needArchs := by
  by_cases hb : f.buildId = []
  · rw [addNativeLibOnHost_skip s f (Or.inl hb)]
  · by_cases ha : f.arch ∈ s.needArchs
    · cases hl : alookup s.hostBuildIdMap f.buildId with
      | some e =>
        rw [addNativeLibOnHost_some s f e hb ha hl]
        split <;> rfl
      | none => rw [addNativeLibOnHost_none s f hb ha hl]
    · rw [addNativeLibOnHost_skip s f (Or.inr ha)]

/-! ### Claim C7 -/

theorem addNativeLibOnHost_update_entry (s : NativeLibDownloader) (f : HostFile)
    (e : HostElfEntry) (hb : f.buildId ≠ []) (ha : f.arch ∈ s.needArchs)
    (he : alookup s.hostBuildIdMap f.buildId = some e) :
    alookup (addNativeLibOnHost s f).hostBuildIdMap f.buildId =
      some (if e.score < computeScore f.sections then
        ⟨f.path, e.name, computeScore f.sections⟩ else e)
    ∧ (addNativeLibOnHost s f).nameCountMap = s.nameCountMap := by
  rw [addNativeLibOnHost_some s f e hb ha he]
  by_cases hlt : e.score < computeScore f.sections
  · simp [hlt, alookup_ainsert_self]
  · simp [hlt, he]

theorem addNativeLibOnHost_fresh_entry (s : NativeLibDownloader) (f : HostFile)
    (hb : f.buildId ≠ []) (ha : f.arch ∈ s.needArchs)
    (hn : alookup s.hostBuildIdMap f.buildId = none) :
    ∃ nm, alookup (addNativeLibOnHost s f).hostBuildIdMap f.buildId =
      some ⟨f.path, nm, computeScore f.sections⟩ := by
  rw [addNativeLibOnHost_none s f hb ha hn]
  exact ⟨_, alookup_ainsert_self ..⟩

/-- C7: for a file whose build id is already registered, the entry's path
and score are replaced exactly when the new score is strictly higher (ties
keep the first-seen file) and the name is never changed; for a new build id
a fresh entry is created with the file's path and score; consequently, for
two files sharing a build id with different scores, the registry ends with
the higher-scoring file's path and score in either discovery order. -/
theorem add_keeps_higher_score (s : NativeLibDownloader) (f g : HostFile)
    (hb : f.buildId ≠ []) (ha : f.arch ∈ s.needArchs) :
    (∀ e, alookup s.hostBuildIdMap f.buildId = some e →
      alookup (addNativeLibOnHost s f).hostBuildIdMap f.buildId =
        some (if e.score < computeScore f.sections then
          ⟨f.path, e.name, computeScore f.sections⟩ else e)
      ∧ (addNativeLibOnHost s f).nameCountMap = s.nameCountMap)
    ∧ (alookup s.hostBuildIdMap f.buildId = none →
      ∃ nm, alookup (addNativeLibOnHost s f).hostBuildIdMap f.buildId =
        some ⟨f.path, nm, computeScore f.sections⟩)
    ∧ (g.buildId = f.buildId → g.arch ∈ s.needArchs →
      alookup s.hostBuildIdMap f.buildId = none →
      computeScore g.sections < computeScore f.sections →
      (alookup (addNativeLibOnHost (addNativeLibOnHost s f) g).hostBuildIdMap
          f.buildId).map (fun e => (e.path, e.score)) =
        some (f.path, computeScore f.sections)
      ∧ (alookup (addNativeLibOnHost (addNativeLibOnHost s g) f).hostBuildIdMap
          f.buildId).map (fun e => (e.path, e.score)) =
        some (f.path, computeScore f.sections)) := by
  refine ⟨fun e he => addNativeLibOnHost_update_entry s f e hb ha he,
    addNativeLibOnHost_fresh_entry s f hb ha, ?_⟩
  intro hgb hga hn hlt
  constructor
  · obtain ⟨nm, hlook⟩ := addNativeLibOnHost_fresh_entry s f hb ha hn
    have hupd := (addNativeLibOnHost_update_entry (addNativeLibOnHost s f) g
      ⟨f.path, nm, computeScore f.sections⟩ (by rw [hgb]; exact hb)
      (by rw [addNativeLibOnHost_needArchs]; exact hga)
      (by rw [hgb]; exact hlook)).1
    rw [hgb] at hupd
    have hnotlt : ¬ ((⟨f.path, nm, computeScore f.sections⟩ :
        HostElfEntry).score < computeScore g.sections) := Nat.lt_asymm hlt
    rw [if_neg hnotlt] at hupd
    rw [hupd]
    rfl
  · obtain ⟨nm, hlook⟩ := addNativeLibOnHost_fresh_entry s g (by rw [hgb]; exact hb)
      hga (by rw [hgb]; exact hn)
    have hupd := (addNativeLibOnHost_update_entry (addNativeLibOnHost s g) f
      ⟨g.path, nm, computeScore g.sections⟩ hb
      (by rw [addNativeLibOnHost_needArchs]; exact ha)
      (by rw [← hgb]; exact hlook)).1
    have hlt' : (⟨g.path, nm, computeScore g.sections⟩ :
        HostElfEntry).score < computeScore f.sections := hlt
    rw [if_pos hlt'] at hupd
    rw [hupd]
    rfl

/-- Witness for C7: two files sharing build id `A1`, a bare one and one with
full debug info, in both orders, on a fresh arm64 downloader. -/
theorem add_keeps_higher_score_witness :
    (alookup (addNativeLibOnHost (addNativeLibOnHost (mkNativeLibDownloader "arm64".data)
        ⟨"/h/sub/libfoo.so".data, "libfoo.so".data, "A1".data, "arm64".data,
          [".debug_info".data]⟩)
        ⟨"/h/libfoo.so".data, "libfoo.so".data, "A1".data, "arm64".data, []⟩).hostBuildIdMap
      "A1".data).map (fun e => (e.path, e.score)) =
      some ("/h/sub/libfoo.so".data, 3)
    ∧ (alookup (addNativeLibOnHost (addNativeLibOnHost (mkNativeLibDownloader "arm64".data)
        ⟨"/h/libfoo.so".data, "libfoo.so".data, "A1".data, "arm64".data, []⟩)
        ⟨"/h/sub/libfoo.so".data, "libfoo.so".data, "A1".data, "arm64".data,
          [".debug_info".data]⟩).hostBuildIdMap
      "A1".data).map (fun e => (e.path, e.score)) =
      some ("/h/sub/libfoo.so".data, 3) :=
  (add_keeps_higher_score (mkNativeLibDownloader "arm64".data)
    ⟨"/h/sub/libfoo.so".data, "libfoo.so".data, "A1".data, "arm64".data,
      [".debug_info".data]⟩
    ⟨"/h/libfoo.so".data, "libfoo.so".data, "A1".data, "arm64".data, []⟩
    (by decide) (by decide)).2.2 rfl (by decide) rfl (by decide)

/-! ### Claim C5 -/

/-- C5 counterexample: `collect_native_libs_on_host` clears
`host_build_id_map` but not `name_count_map`, so running collect twice on
the same downloader instance over one unchanged file (same traversal order)
assigns `liba.so` the first time and `liba.so_1` the second time. -/
theorem rescan_same_instance_counterexample :
    (alookup (collectNativeLibsOnHost (mkNativeLibDownloader "arm64".data)
        [⟨"/h/liba.so".data, "liba.so".data, "X".data, "arm64".data, []⟩]).hostBuildIdMap
      "X".data).map HostElfEntry.name = some "liba.so".data
    ∧ (alookup (collectNativeLibsOnHost
        (collectNativeLibsOnHost (mkNativeLibDownloader "arm64".data)
          [⟨"/h/liba.so".data, "liba.so".data, "X".data, "arm64".data, []⟩])
        [⟨"/h/liba.so".data, "liba.so".data, "X".data, "arm64".data, []⟩]).hostBuildIdMap
      "X".data).map HostElfEntry.name = some "liba.so_1".data := by
  decide

theorem addNativeLibOnHost_congr (s t : NativeLibDownloader) (f : HostFile)
    (hna : s.needArchs = t.needArchs) (hh : s.hostBuildIdMap = t.hostBuildIdMap)
    (hnc : s.nameCountMap = t.nameCountMap) :
    (addNativeLibOnHost s f).needArchs = (addNativeLibOnHost t f).needArchs
    ∧ (addNativeLibOnHost s f).hostBuildIdMap = (addNativeLibOnHost t f).hostBuildIdMap
    ∧ (addNativeLibOnHost s f).nameCountMap = (addNativeLibOnHost t f).nameCountMap := by
  by_cases hb : f.buildId = []
  · rw [addNativeLibOnHost_skip s f (Or.inl hb), addNativeLibOnHost_skip t f (Or.inl hb)]
    exact ⟨hna, hh, hnc⟩
  by_cases ha : f.arch ∈ s.needArchs
  · have hat : f.arch ∈ t.needArchs := hna ▸ ha
    cases hl : alookup s.hostBuildIdMap f.buildId with
    | some e =>
      rw [addNativeLibOnHost_some s f e hb ha hl,
        addNativeLibOnHost_some t f e hb hat (hh ▸ hl)]
      by_cases hsc : e.score < computeScore f.sections <;>
        simp [hsc, hna, hh, hnc]
    | none =>
      rw [addNativeLibOnHost_none s f hb ha hl,
        addNativeLibOnHost_none t f hb hat (hh ▸ hl)]
      simp [hna, hh, hnc]
  · have hat : f.arch ∉ t.needArchs := hna ▸ ha
    rw [addNativeLibOnHost_skip s f (Or.inr ha), addNativeLibOnHost_skip t f (Or.inr hat)]
    exact ⟨hna, hh, hnc⟩

/-- C5 amended: scanning the same file sequence (identical traversal order)
from two scanner states that agree on the need-arch set and on the
name-count registry — as two fresh `NativeLibDownloader` instances do —
yields identical host registries, hence identical name assignments. (The
claim as stated, re-running `collect` on the *same* instance, fails: collect
clears only `host_build_id_map`, and the surviving `name_count_map` makes
the second scan append numeric suffixes, see the counterexample.) -/
theorem collect_fresh_rescan_same_names (s t : NativeLibDownloader)
    (files : List HostFile) (hna : s.needArchs = t.needArchs)
    (hnc : s.nameCountMap = t.nameCountMap) :
    (collectNativeLibsOnHost s files).hostBuildIdMap =
      (collectNativeLibsOnHost t files).hostBuildIdMap := by
  unfold collectNativeLibsOnHost
  have main : ∀ (fs : List HostFile) (a b : NativeLibDownloader),
      a.needArchs = b.needArchs → a.hostBuildIdMap = b.hostBuildIdMap →
      a.nameCountMap = b.nameCountMap →
      (fs.foldl (fun st f =>
        if ".so".data.isSuffixOf f.name then addNativeLibOnHost st f else st)
        a).hostBuildIdMap =
      (fs.foldl (fun st f =>
        if ".so".data.isSuffixOf f.name then addNativeLibOnHost st f else st)
        b).hostBuildIdMap := by
    intro fs
    induction fs with
    | nil => intro a b _ h2 _; exact h2
    | cons f rest ih =>
      intro a b h1 h2 h3
      by_cases hs : ".so".data.isSuffixOf f.name <;>
        simp only [List.foldl_cons, hs, if_true, if_false]
      · obtain ⟨g1, g2, g3⟩ := addNativeLibOnHost_congr a b f h1 h2 h3
        exact ih _ _ g1 g2 g3
      · exact ih a b h1 h2 h3
  exact main files _ _ hna rfl hnc

/-- Witness for C5: a scanner that already holds stale host and device maps
but a fresh name-count registry assigns the same names as a fresh arm64
instance. -/
theorem collect_fresh_rescan_same_names_witness :
    (collectNativeLibsOnHost
      ⟨getNeedArchs "arm64".data,
       [("Z".data, ⟨"/old".data, "old.so".data, 2⟩)],
       [("W".data, "w.so".data)], []⟩
      [⟨"/h/liba.so".data, "liba.so".data, "X".data, "arm64".data, []⟩]).hostBuildIdMap =
    (collectNativeLibsOnHost (mkNativeLibDownloader "arm64".data)
      [⟨"/h/liba.so".data, "liba.so".data, "X".data, "arm64".data, []⟩]).hostBuildIdMap :=
  collect_fresh_rescan_same_names
    ⟨getNeedArchs "arm64".data,
     [("Z".data, ⟨"/old".data, "old.so".data, 2⟩)],
     [("W".data, "w.so".data)], []⟩
    (mkNativeLibDownloader "arm64".data)
    [⟨"/h/liba.so".data, "liba.so".data, "X".data, "arm64".data, []⟩] rfl rfl

/-! ### Claim C4 -/

theorem splitOnChar_ne_nil (sep : Char) (l : Str) : splitOnChar sep l ≠ [] := by
  cases l with
  | nil => simp [splitOnChar]
  | cons c rest =>
    unfold splitOnChar
    cases h : splitOnChar sep rest with
    | nil => simp
    | cons cur done => by_cases hc : c = sep <;> simp [hc]

theorem splitOnChar_not_mem (sep : Char) (l : Str) (h : sep ∉ l) :
    splitOnChar sep l = [l] := by
  induction l with
  | nil => rfl
  | cons c rest ih =>
    simp only [List.mem_cons, not_or] at h
    unfold splitOnChar
    rw [ih h.2]
    simp [Ne.symm h.1]

theorem splitOnChar_append_cons (sep : Char) (a b : Str) (h : sep ∉ a) :
    splitOnChar sep (a ++ sep :: b) = a :: splitOnChar sep b := by
  induction a with
  | nil =>
    simp only [List.nil_append]
    cases hb : splitOnChar sep b with
    | nil => exact absurd hb (splitOnChar_ne_nil sep b)
    | cons cur done =>
      have heq : splitOnChar sep (sep :: b) =
          match splitOnChar sep b with
          | [] => [[]]
          | cur :: done =>
            if sep = sep then [] :: cur :: done else (sep :: cur) :: done := rfl
      rw [heq, hb]
      simp
  | cons c a' ih =>
    simp only [List.mem_cons, not_or] at h
    simp only [List.cons_append]
    have heq : splitOnChar sep (c :: (a' ++ sep :: b)) =
        match splitOnChar sep (a' ++ sep :: b) with
        | [] => [[]]
        | cur :: done =>
          if c = sep then [] :: cur :: done else (c :: cur) :: done := rfl
    rw [heq, ih h.2]
    simp [Ne.symm h.1]

theorem pyStrip_eq_self (l : Str)
    (hh : ∀ c, l.head? = some c → isPyWs c = false)
    (hl : ∀ c, l.getLast? = some c → isPyWs c = false) :
    pyStrip l = l := by
  unfold pyStrip
  have h1 : l.dropWhile isPyWs = l := by
    cases l with
    | nil => rfl
    | cons c rest => rw [List.dropWhile_cons, hh c rfl, if_neg (by simp)]
  rw [h1]
  have h2 : l.reverse.dropWhile isPyWs = l.reverse := by
    cases hr : l.reverse with
    | nil => rfl
    | cons c rest =>
      have : l.getLast? = some c := by
        rw [← List.head?_reverse, hr]
        rfl
      rw [List.dropWhile_cons, hl c this, if_neg (by simp)]
  rw [h2, List.reverse_reverse]

theorem serializeManifest_lines (m : List (Str × Str))
    (h : ∀ p ∈ m, '\n' ∉ p.1 ∧ '\n' ∉ p.2) :
    splitOnChar '\n' (serializeManifest m) =
      m.map (fun p => p.1 ++ '=' :: p.2) ++ [[]] := by
  induction m with
  | nil => rfl
  | cons p rest ih =>
    have hp := h p (List.mem_cons_self _ _)
    have hline : '\n' ∉ p.1 ++ '=' :: p.2 := by
      simp only [List.mem_append, List.mem_cons, not_or]
      exact ⟨hp.1, by decide, hp.2⟩
    have hser : serializeManifest (p :: rest) =
        (p.1 ++ '=' :: p.2) ++ '\n' :: serializeManifest rest := by
      simp [serializeManifest, List.append_assoc]
    rw [hser, splitOnChar_append_cons '\n' _ _ hline,
      ih (fun q hq => h q (List.mem_cons_of_mem _ hq))]
    rfl

theorem parseBuildIdLine_good (acc : List (Str × Str)) (k v : Str)
    (hk : '=' ∉ k) (hv : '=' ∉ v)
    (hkw : ∀ c, k.head? = some c → isPyWs c = false)
    (hvw : ∀ c, v.getLast? = some c → isPyWs c = false) :
    parseBuildIdLine acc (k ++ '=' :: v) = ainsert acc k v := by
  have hstrip : pyStrip (k ++ '=' :: v) = k ++ '=' :: v := by
    apply pyStrip_eq_self
    · intro c hc
      cases k with
      | nil =>
        simp only [List.nil_append, List.head?_cons, Option.some.injEq] at hc
        rw [← hc]
        rfl
      | cons x xs =>
        simp only [List.cons_append, List.head?_cons, Option.some.injEq] at hc
        exact hkw c (by rw [← hc]; rfl)
    · intro c hc
      rw [List.getLast?_append] at hc
      cases v with
      | nil =>
        have h0 : (('=' : Char) :: ([] : Str)).getLast? = some '=' := rfl
        rw [h0] at hc
        have : ('=' : Char) = c := by simpa [Option.or] using hc
        rw [← this]
        rfl
      | cons y ys =>
        rw [List.getLast?_cons_cons] at hc
        cases hg : (y :: ys).getLast? with
        | none =>
          have : ((y :: ys).getLast?).isSome = true :=
            List.getLast?_isSome.mpr (by simp)
          rw [hg] at this
          simp at this
        | some d =>
          rw [hg] at hc
          have hdc : d = c := by simpa [Option.or] using hc
          exact hdc ▸ hvw d (by rw [hg])
  have hsplit : splitOnChar '=' (k ++ '=' :: v) = [k, v] := by
    rw [splitOnChar_append_cons '=' k v hk, splitOnChar_not_mem '=' v hv]
  simp [parseBuildIdLine, hstrip, hsplit]

theorem parseBuildIdLine_empty (acc : List (Str × Str)) :
    parseBuildIdLine acc [] = acc := rfl

theorem parse_fold_lines (m acc : List (Str × Str))
    (hdisj : ∀ p ∈ m, ∀ q ∈ acc, p.1 ≠ q.1)
    (hnodup : (m.map Prod.fst).Nodup)
    (hne : ∀ p ∈ m, '=' ∉ p.1 ∧ '=' ∉ p.2)
    (hws : ∀ p ∈ m, (∀ c, p.1.head? = some c → isPyWs c = false)
      ∧ (∀ c, p.2.getLast? = some c → isPyWs c = false)) :
    (m.map (fun p => p.1 ++ '=' :: p.2)).foldl parseBuildIdLine acc = acc ++ m := by
  induction m generalizing acc with
  | nil => simp
  | cons p rest ih =>
    have hp := hne p (List.mem_cons_self _ _)
    have hpw := hws p (List.mem_cons_self _ _)
    have hstep : parseBuildIdLine acc (p.1 ++ '=' :: p.2) = acc ++ [p] := by
      rw [parseBuildIdLine_good acc p.1 p.2 hp.1 hp.2 hpw.1 hpw.2,
        ainsert_of_alookup_none p.2
          (alookup_eq_none_of_keys (fun q hq =>
            (hdisj p (List.mem_cons_self _ _) q hq).symm))]
    simp only [List.map_cons, List.foldl_cons, hstep]
    rw [ih (acc ++ [p])
      (by
        intro p' hp' q hq
        simp only [List.mem_append, List.mem_singleton] at hq
        rcases hq with hq | hq
        · exact hdisj p' (List.mem_cons_of_mem _ hp') q hq
        · subst hq
          simp only [List.map_cons, List.nodup_cons, List.mem_map] at hnodup
          intro hc
          exact hnodup.1 ⟨p', hp', hc⟩)
      (by simpa using hnodup.of_cons)
      (fun q hq => hne q (List.mem_cons_of_mem _ hq))
      (fun q hq => hws q (List.mem_cons_of_mem _ hq))]
    simp

/-- C4 counterexample: the mapping `{b ↦ "x "}` contains no `=` and no
newline, yet serializing and parsing it back strips the value's trailing
space and yields `{b ↦ "x"}`, not the original mapping. -/
theorem manifest_round_trip_counterexample :
    collectNativeLibsOnDevice
        (some (serializeManifest [("b".data, "x ".data)])) =
      [("b".data, "x".data)]
    ∧ collectNativeLibsOnDevice
        (some (serializeManifest [("b".data, "x ".data)])) ≠
      [("b".data, "x ".data)] := by
  decide

/-- C4 amended: for every mapping with pairwise-distinct keys whose keys and
values contain no `=` and no newline, and whose keys do not begin — nor
values end — with Python whitespace (the reader strips each line before
splitting), writing the manifest (one `build_id=name` line per entry,
newline-terminated) and parsing it back yields the original mapping. -/
theorem manifest_round_trip (m : List (Str × Str))
    (hnodup : (m.map Prod.fst).Nodup)
    (hne : ∀ p ∈ m, '=' ∉ p.1 ∧ '=' ∉ p.2)
    (hnl : ∀ p ∈ m, '\n' ∉ p.1 ∧ '\n' ∉ p.2)
    (hws : ∀ p ∈ m, (∀ c, p.1.head? = some c → isPyWs c = false)
      ∧ (∀ c, p.2.getLast? = some c → isPyWs c = false)) :
    collectNativeLibsOnDevice (some (serializeManifest m)) = m := by
  show (splitOnChar '\n' (serializeManifest m)).foldl parseBuildIdLine [] = m
  rw [serializeManifest_lines m hnl, List.foldl_append]
  rw [parse_fold_lines m [] (by simp) hnodup hne hws]
  simp [parseBuildIdLine_empty]

/-- Witness for C4 on a two-entry manifest. -/
theorem manifest_round_trip_witness :
    collectNativeLibsOnDevice (some (serializeManifest
      [("B1".data, "lib1.so".data), ("B2".data, "lib2.so".data)])) =
    [("B1".data, "lib1.so".data), ("B2".data, "lib2.so".data)] :=
  manifest_round_trip [("B1".data, "lib1.so".data), ("B2".data, "lib2.so".data)]
    (by decide) (by decide) (by decide)
    (by
      intro p hp
      fin_cases hp <;>
        exact ⟨fun c hc => by cases hc; rfl, fun c hc => by cases hc; rfl⟩)

/-! ### Claim C9: decimal names -/

theorem digitChar_toNat_sub (n : Nat) (h : n < 10) :
    (Nat.digitChar n).toNat - 48 = n := by
  interval_cases n <;> rfl

theorem digitChar_isDigit (n : Nat) (h : n < 10) :
    (Nat.digitChar n).isDigit = true := by
  interval_cases n <;> rfl

theorem toDecimalAux_ne_nil (fuel n : Nat) : toDecimalAux fuel n ≠ [] := by
  cases fuel with
  | zero => simp [toDecimalAux]
  | succ fuel =>
    unfold toDecimalAux
    by_cases h : n < 10 <;> simp [h]

theorem toDecimalAux_digits (fuel : Nat) : ∀ (n : Nat),
    ∀ c ∈ toDecimalAux fuel n, c.isDigit = true := by
  induction fuel with
  | zero =>
    intro n c hc
    simp only [toDecimalAux, List.mem_singleton] at hc
    exact hc ▸ digitChar_isDigit _ (Nat.mod_lt _ (by omega))
  | succ fuel ih =>
    intro n c hc
    unfold toDecimalAux at hc
    by_cases h : n < 10
    · simp only [h, if_true, List.mem_singleton] at hc
      exact hc ▸ digitChar_isDigit _ h
    · simp only [h, if_false, List.mem_append, List.mem_singleton] at hc
      rcases hc with hc | hc
      · exact ih _ c hc
      · exact hc ▸ digitChar_isDigit _ (Nat.mod_lt _ (by omega))

theorem toDecimalAux_foldl (fuel : Nat) : ∀ (n init : Nat), n ≤ fuel →
    (toDecimalAux fuel n).foldl (fun a c => 10 * a + (c.toNat - 48)) init =
      init * 10 ^ (toDecimalAux fuel n).length + n := by
  induction fuel with
  | zero =>
    intro n init h
    have hn : n = 0 := Nat.le_zero.mp h
    subst hn
    simp [toDecimalAux, digitChar_toNat_sub 0 (by omega)]
    omega
  | succ fuel ih =>
    intro n init h
    by_cases hlt : n < 10
    · simp [toDecimalAux, hlt, digitChar_toNat_sub n hlt, Nat.mul_comm]
    · have h10 : 10 ≤ n := Nat.le_of_not_lt hlt
      have hdiv : n / 10 ≤ fuel := by
        have := Nat.div_lt_self (by omega : 0 < n) (by omega : 1 < 10)
        omega
      simp only [toDecimalAux, hlt, if_false]
      rw [List.foldl_append]
      rw [ih (n / 10) init hdiv]
      simp only [List.foldl_cons, List.foldl_nil, List.length_append,
        List.length_singleton]
      rw [digitChar_toNat_sub (n % 10) (Nat.mod_lt _ (by omega))]
      have : init * 10 ^ ((toDecimalAux fuel (n / 10)).length + 1) =
          init * 10 ^ (toDecimalAux fuel (n / 10)).length * 10 := by
        rw [Nat.pow_succ, ← Nat.mul_assoc]
      rw [this]
      have hmod := Nat.div_add_mod n 10
      omega

theorem pyStrNat_inj (m n : Nat) (h : pyStrNat m = pyStrNat n) : m = n := by
  have hm := toDecimalAux_foldl m m 0 le_rfl
  have hn := toDecimalAux_foldl n n 0 le_rfl
  unfold pyStrNat at h
  rw [h] at hm
  rw [hm] at hn
  omega

theorem underscore_split (b1 : Str) : ∀ (b2 d1 d2 : Str),
    (∀ c ∈ d1, c.isDigit = true) → (∀ c ∈ d2, c.isDigit = true) →
    b1 ++ '_' :: d1 = b2 ++ '_' :: d2 → b1 = b2 ∧ d1 = d2 := by
  induction b1 with
  | nil =>
    intro b2 d1 d2 hd1 _ h
    cases b2 with
    | nil =>
      simp only [List.nil_append, List.cons.injEq] at h
      exact ⟨rfl, h.2⟩
    | cons x bs =>
      exfalso
      simp only [List.nil_append, List.cons_append, List.cons.injEq] at h
      have : '_' ∈ d1 := by
        rw [h.2]
        simp
      have := hd1 '_' this
      simp at this
  | cons x bs ih =>
    intro b2 d1 d2 hd1 hd2 h
    cases b2 with
    | nil =>
      exfalso
      simp only [List.cons_append, List.nil_append, List.cons.injEq] at h
      have : '_' ∈ d2 := by
        rw [← h.2]
        simp
      have := hd2 '_' this
      simp at this
    | cons y bs2 =>
      simp only [List.cons_append, List.cons.injEq] at h
      obtain ⟨hd, he⟩ := ih bs2 d1 d2 hd1 hd2 h.2
      exact ⟨by rw [h.1, hd], he⟩

/-- The unique name assigned by `add_native_lib_on_host` for base name
`base` when the previous repeat count is `j`. -/
def encodeName (base : Str) (j : Nat) : Str :=
  if j = 0 then base else base ++ '_' :: pyStrNat j

theorem getLast?_append_cons (a : Str) (c : Char) (d : Str) :
    (a ++ c :: d).getLast? = (c :: d).getLast? := by
  rw [List.getLast?_append]
  cases hg : (c :: d).getLast? with
  | none =>
    have : ((c :: d).getLast?).isSome = true :=
      List.getLast?_isSome.mpr (by simp)
    rw [hg] at this
    simp at this
  | some e => rfl

theorem endsSo_getLast (base p : Str) (h : base = p ++ ".so".data) :
    base.getLast? = some 'o' := by
  subst h
  rw [show (".so".data : Str) = '.' :: 's' :: 'o' :: [] from rfl,
    getLast?_append_cons]
  rfl

theorem encodeName_pos_getLast (base : Str) (j : Nat) (_hj : j ≠ 0) :
    ∃ e, (base ++ '_' :: pyStrNat j).getLast? = some e ∧ e.isDigit = true := by
  rw [getLast?_append_cons]
  cases hd : pyStrNat j with
  | nil => exact absurd hd (toDecimalAux_ne_nil j j)
  | cons y ys =>
    rw [List.getLast?_cons_cons]
    cases hg : (y :: ys).getLast? with
    | none =>
      have : ((y :: ys).getLast?).isSome = true :=
        List.getLast?_isSome.mpr (by simp)
      rw [hg] at this
      simp at this
    | some e =>
      refine ⟨e, rfl, ?_⟩
      have he : e ∈ pyStrNat j := by
        rw [hd]
        exact List.mem_of_mem_getLast? hg
      exact toDecimalAux_digits j j e he

theorem encodeName_inj (b1 b2 : Str) (j1 j2 : Nat)
    (h1 : ∃ p, b1 = p ++ ".so".data) (h2 : ∃ p, b2 = p ++ ".so".data)
    (h : encodeName b1 j1 = encodeName b2 j2) : b1 = b2 ∧ j1 = j2 := by
  obtain ⟨p1, hp1⟩ := h1
  obtain ⟨p2, hp2⟩ := h2
  unfold encodeName at h
  by_cases hj1 : j1 = 0 <;> by_cases hj2 : j2 = 0
  · rw [if_pos hj1, if_pos hj2] at h
    exact ⟨h, by rw [hj1, hj2]⟩
  · exfalso
    rw [if_pos hj1, if_neg hj2] at h
    obtain ⟨e, he, hdig⟩ := encodeName_pos_getLast b2 j2 hj2
    rw [← h] at he
    rw [endsSo_getLast b1 p1 hp1] at he
    cases he
    simp at hdig
  · exfalso
    rw [if_neg hj1, if_pos hj2] at h
    obtain ⟨e, he, hdig⟩ := encodeName_pos_getLast b1 j1 hj1
    rw [h] at he
    rw [endsSo_getLast b2 p2 hp2] at he
    cases he
    simp at hdig
  · rw [if_neg hj1, if_neg hj2] at h
    obtain ⟨hb, hd⟩ := underscore_split b1 b2 (pyStrNat j1) (pyStrNat j2)
      (toDecimalAux_digits j1 j1) (toDecimalAux_digits j2 j2) h
    exact ⟨hb, pyStrNat_inj j1 j2 hd⟩

/-! ### Claim C9: scan invariant -/

/-- Evidence that an entry's name is one the scanner can have assigned: it
encodes a `.so` base name together with an index strictly below that base's
recorded repeat count. -/
def entryNameOk (nc : List (Str × Nat)) (e : HostElfEntry) : Prop :=
  ∃ base j c, (∃ p, base = p ++ ".so".data) ∧ alookup nc base = some c ∧
    j < c ∧ e.name = encodeName base j

/-- Scan invariant: every registry entry's name is well-formed with respect
to the name-count registry, and the names are pairwise distinct. -/
def scanInv (host : List (Str × HostElfEntry)) (nc : List (Str × Nat)) : Prop :=
  (∀ p ∈ host, entryNameOk nc p.2) ∧
  host.Pairwise (fun p q => p.2.name ≠ q.2.name)

theorem entryNameOk_bump (nc : List (Str × Nat)) (nm : Str) (e : HostElfEntry)
    (h : entryNameOk nc e) :
    entryNameOk (ainsert nc nm ((alookup nc nm).getD 0 + 1)) e := by
  obtain ⟨base, j, c, hso, hlk, hjc, hname⟩ := h
  by_cases hb : base = nm
  · subst hb
    refine ⟨base, j, (alookup nc base).getD 0 + 1, hso,
      alookup_ainsert_self .., ?_, hname⟩
    have : (alookup nc base).getD 0 = c := by rw [hlk]; rfl
    omega
  · exact ⟨base, j, c, hso,
      by rw [alookup_ainsert_ne nc nm base _ hb]; exact hlk, hjc, hname⟩

theorem fresh_name_not_used (host : List (Str × HostElfEntry))
    (nc : List (Str × Nat)) (inv : scanInv host nc) (base : Str)
    (hso : ∃ p, base = p ++ ".so".data) :
    ∀ p ∈ host, p.2.name ≠ encodeName base ((alookup nc base).getD 0) := by
  intro p hp hcontra
  obtain ⟨base', j, c, hso', hlk', hjc, hname⟩ := inv.1 p hp
  rw [hname] at hcontra
  obtain ⟨hb, hj⟩ := encodeName_inj base' base j
    ((alookup nc base).getD 0) hso' hso hcontra
  subst hb
  rw [hlk'] at hj
  simp only [Option.getD_some] at hj
  omega

theorem pairwise_names_ainsert_same (host : List (Str × HostElfEntry))
    (b : Str) (v e : HostElfEntry) (he : alookup host b = some e)
    (hname : v.name = e.name)
    (hp : host.Pairwise (fun p q => p.2.name ≠ q.2.name)) :
    (ainsert host b v).Pairwise (fun p q => p.2.name ≠ q.2.name) := by
  induction host with
  | nil => simp [alookup] at he
  | cons p rest ih =>
    obtain ⟨k, w⟩ := p
    rw [List.pairwise_cons] at hp
    by_cases hk : k = b
    · subst hk
      have hw : w = e := by simpa [alookup] using he
      subst hw
      have hins : ainsert ((k, w) :: rest) k v = (k, v) :: rest := by
        simp [ainsert]
      rw [hins, List.pairwise_cons]
      refine ⟨fun q hq => ?_, hp.2⟩
      have := hp.1 q hq
      simpa [hname] using this
    · have he' : alookup rest b = some e := by simpa [alookup, hk] using he
      simp only [ainsert, if_neg hk]
      rw [List.pairwise_cons]
      refine ⟨fun q hq => ?_, ih he' hp.2⟩
      rcases mem_ainsert hq with hq' | hq'
      · exact hp.1 q hq'
      · subst hq'
        have hmem : (b, e) ∈ rest := mem_of_alookup he'
        have := hp.1 (b, e) hmem
        simpa [hname] using this

theorem scanInv_add (s : NativeLibDownloader) (f : HostFile)
    (hso : ".so".data.isSuffixOf f.name = true)
    (h : scanInv s.hostBuildIdMap s.nameCountMap) :
    scanInv (addNativeLibOnHost s f).hostBuildIdMap
      (addNativeLibOnHost s f).nameCountMap := by
  by_cases hb : f.buildId = []
  · rw [addNativeLibOnHost_skip s f (Or.inl hb)]
    exact h
  by_cases ha : f.arch ∈ s.needArchs
  case neg =>
    rw [addNativeLibOnHost_skip s f (Or.inr ha)]
    exact h
  cases hl : alookup s.hostBuildIdMap f.buildId with
  | some e =>
    rw [addNativeLibOnHost_some s f e hb ha hl]
    by_cases hsc : e.score < computeScore f.sections
    · rw [if_pos hsc]
      constructor
      · intro p hp
        rcases mem_ainsert hp with hp' | hp'
        · exact h.1 p hp'
        · subst hp'
          obtain ⟨base, j, c, h1, h2, h3, h4⟩ :=
            h.1 (f.buildId, e) (mem_of_alookup hl)
          exact ⟨base, j, c, h1, h2, h3, h4⟩
      · exact pairwise_names_ainsert_same s.hostBuildIdMap f.buildId _ e hl rfl h.2
    · rw [if_neg hsc]
      exact h
  | none =>
    rw [addNativeLibOnHost_none s f hb ha hl]
    obtain ⟨pso, hpso⟩ := List.isSuffixOf_iff_suffix.mp hso
    have hsoex : ∃ p, f.name = p ++ ".so".data := ⟨pso, hpso.symm⟩
    have hnew_name :
        (if (alookup s.nameCountMap f.name).getD 0 = 0 then f.name
         else f.name ++ '_' :: pyStrNat ((alookup s.nameCountMap f.name).getD 0)) =
        encodeName f.name ((alookup s.nameCountMap f.name).getD 0) := rfl
    constructor
    · intro p hp
      rw [ainsert_of_alookup_none _ hl] at hp
      rcases List.mem_append.mp hp with hp' | hp'
      · exact entryNameOk_bump s.nameCountMap f.name p.2 (h.1 p hp')
      · rw [List.mem_singleton] at hp'
        subst hp'
        exact ⟨f.name, (alookup s.nameCountMap f.name).getD 0,
          (alookup s.nameCountMap f.name).getD 0 + 1, hsoex,
          alookup_ainsert_self .., by omega, hnew_name⟩
    · rw [ainsert_of_alookup_none _ hl, List.pairwise_append]
      refine ⟨h.2, by simp, ?_⟩
      intro p hp q hq
      rw [List.mem_singleton] at hq
      subst hq
      have := fresh_name_not_used s.hostBuildIdMap s.nameCountMap h f.name hsoex p hp
      simpa [hnew_name] using this

/-- C9: within one scan, the names in the host registry are pairwise
distinct: any two entries with different build identifiers carry different
assigned names (base-name collisions having been resolved with numeric
suffixes on later occurrences). -/
theorem collect_names_pairwise_distinct (s : NativeLibDownloader)
    (files : List HostFile) :
    ∀ p ∈ (collectNativeLibsOnHost s files).hostBuildIdMap,
    ∀ q ∈ (collectNativeLibsOnHost s files).hostBuildIdMap,
    p.1 ≠ q.1 → p.2.name ≠ q.2.name := by
  have main : ∀ (fs : List HostFile) (st : NativeLibDownloader),
      scanInv st.hostBuildIdMap st.nameCountMap →
      scanInv (fs.foldl (fun st f =>
          if ".so".data.isSuffixOf f.name then addNativeLibOnHost st f else st)
        st).hostBuildIdMap
        (fs.foldl (fun st f =>
          if ".so".data.isSuffixOf f.name then addNativeLibOnHost st f else st)
        st).nameCountMap := by
    intro fs
    induction fs with
    | nil => intro st hst; exact hst
    | cons f rest ih =>
      intro st hst
      by_cases hs : ".so".data.isSuffixOf f.name <;>
        simp only [List.foldl_cons, hs, if_true, if_false]
      · exact ih _ (scanInv_add st f hs hst)
      · exact ih st hst
  have hinv := main files { s with hostBuildIdMap := [] }
    ⟨by simp, List.Pairwise.nil⟩
  intro p hp q hq hne
  exact List.Pairwise.forall (fun x y hxy => hxy.symm) hinv.2 hp hq
    (fun hpq => hne (by rw [hpq]))

/-- Witness for C9 at the spec's scenario: two `.so` files with distinct
build ids `X`, `Y` but the same base name get names `liba.so` and
`liba.so_1`. -/
theorem collect_names_pairwise_distinct_witness :
    ("X".data, (⟨"/1/liba.so".data, "liba.so".data, 0⟩ : HostElfEntry)) ∈
      (collectNativeLibsOnHost (mkNativeLibDownloader "arm64".data)
        [⟨"/1/liba.so".data, "liba.so".data, "X".data, "arm64".data, []⟩,
         ⟨"/2/liba.so".data, "liba.so".data, "Y".data, "arm64".data, []⟩]).hostBuildIdMap
    ∧ ("Y".data, (⟨"/2/liba.so".data, "liba.so_1".data, 0⟩ : HostElfEntry)) ∈
      (collectNativeLibsOnHost (mkNativeLibDownloader "arm64".data)
        [⟨"/1/liba.so".data, "liba.so".data, "X".data, "arm64".data, []⟩,
         ⟨"/2/liba.so".data, "liba.so".data, "Y".data, "arm64".data, []⟩]).hostBuildIdMap
    ∧ ("liba.so".data : Str) ≠ "liba.so_1".data :=
  ⟨by decide, by decide,
   collect_names_pairwise_distinct (mkNativeLibDownloader "arm64".data)
     [⟨"/1/liba.so".data, "liba.so".data, "X".data, "arm64".data, []⟩,
      ⟨"/2/liba.so".data, "liba.so".data, "Y".data, "arm64".data, []⟩]
     ("X".data, ⟨"/1/liba.so".data, "liba.so".data, 0⟩) (by decide)
     ("Y".data, ⟨"/2/liba.so".data, "liba.so_1".data, 0⟩) (by decide)
     (by decide)⟩
